import Mathlib

/-!
Verification of the socialm repository's core data operations.

Each section shallowly embeds one part of the TypeScript / SQL source:

* `UnifiedFeed`   — `combineAndSortPosts` from `src/hooks/use-optimized-queries.ts`
* `TimeAgo`       — `formatTimeAgo` / `formatTimeAgoMemoized` from the localization utilities
* `Windowing`     — `PerformanceOptimizer.getWindowedItems` from the performance utilities
* `CreatePost`    — `FirebasePostService.createPost` (dual-write fallback)
* `DashboardPost` — the `comments_enabled` insert fallback in `Dashboard.tsx`
* `OptimizedQueries` — the per-call error handling in `useOptimizedQueries`
* `StoryViews`    — `story_views` upsert (`markStoryAsViewed`), `increment_story_views`
* `Likes`         — the SQL function `toggle_post_like`

JavaScript numbers are modelled as `Int` (all values involved are integral in
the source paths under consideration), JS `Map` as an insertion-ordered
association list, database tables as lists of row structures, and each
fallible external call as an explicit oracle argument describing that call's
outcome.  Functions additionally return the list of external calls they
attempted, so that claims about attempt order and absence of retries can be
stated.
-/

namespace Socialm

/-! ## Unified feed: `combineAndSortPosts` -/

namespace UnifiedFeed

/-- A Firestore post; `created_at` is the millisecond value of
`created_at.toDate().getTime()`. -/
structure FirebasePost where
  id : String
  content : String
  created_at : Int
  deriving DecidableEq, Repr

/-- A Supabase post; `created_at` is the raw timestamp string of the row. -/
structure SupabasePost where
  id : String
  content : String
  created_at : String
  deriving DecidableEq, Repr

/-- The TS union `UnifiedPost = FirebasePost | SupabasePost`, discriminated by
its `source` field. -/
inductive UnifiedPost where
  | firebase (p : FirebasePost)
  | supabase (p : SupabasePost)
  deriving DecidableEq, Repr

/-- The post id used by each branch of the union. -/
def UnifiedPost.pid : UnifiedPost → String
  | .firebase p => p.id
  | .supabase p => p.id

/-- The sort key computed by the comparator in `combineAndSortPosts`:
`created_at.toDate().getTime()` for Firebase posts and
`new Date(created_at).getTime()` for Supabase posts, where `parse` models the
JS `Date` constructor on strings. -/
def UnifiedPost.time (parse : String → Int) : UnifiedPost → Int
  | .firebase p => p.created_at
  | .supabase p => parse p.created_at

/-- Models `combineAndSortPosts` from `use-optimized-queries.ts`: concatenates the
two arrays and sorts with comparator `(a, b) => timeB - timeA`.  JS
`Array.prototype.sort` is a stable sort placing `a` before `b` when the
comparator is non-positive, i.e. when `time b ≤ time a`. -/
def combineAndSortPosts (parse : String → Int)
    (firebasePosts : List FirebasePost) (supabasePosts : List SupabasePost) :
    List UnifiedPost :=
  let allPosts : List UnifiedPost :=
    firebasePosts.map .firebase ++ supabasePosts.map .supabase
  allPosts.mergeSort (fun a b => a.time parse ≥ b.time parse)

end UnifiedFeed

end Socialm

namespace Socialm.UnifiedFeed

/-- C1, counterexample: `combineAndSortPosts` performs no deduplication by
post id.  With a Firebase post and a Supabase post sharing id `"x"`, the
output keeps both rows, so its id list is not duplicate-free, contradicting
the claimed "deduplicated by post id". -/
theorem combineAndSortPosts_no_dedup :
    let fb : FirebasePost := ⟨"x", "hello", 5⟩
    let sb : SupabasePost := ⟨"x", "world", "2024-01-01"⟩
    let r := combineAndSortPosts (fun _ => 0) [fb] [sb]
    r.length = 2 ∧ r.map UnifiedPost.pid = ["x", "x"] ∧
      ¬ (r.map UnifiedPost.pid).Nodup := by
  intro fb sb r
  have hr : r = [.firebase fb, .supabase sb] := by
    show List.mergeSort [UnifiedPost.firebase fb, UnifiedPost.supabase sb] _ = _
    apply List.mergeSort_of_sorted
    decide
  rw [hr]
  refine ⟨rfl, rfl, by decide⟩

/-- C1, amended: `combineAndSortPosts` returns a permutation of the
concatenation of its two input lists (no post dropped — not even duplicates —
and no post added), stably sorted by creation timestamp in descending order
(most recent first). -/
theorem combineAndSortPosts_perm_sorted (parse : String → Int)
    (firebasePosts : List FirebasePost) (supabasePosts : List SupabasePost) :
    (combineAndSortPosts parse firebasePosts supabasePosts).Perm
        (firebasePosts.map .firebase ++ supabasePosts.map .supabase) ∧
      (combineAndSortPosts parse firebasePosts supabasePosts).Pairwise
        (fun a b => b.time parse ≤ a.time parse) := by
  constructor
  · exact List.mergeSort_perm _ _
  · have h := @List.sorted_mergeSort UnifiedPost
      (fun a b : UnifiedPost => decide (a.time parse ≥ b.time parse))
      (fun a b c hab hbc => by
        simp only [decide_eq_true_eq, ge_iff_le] at *; omega)
      (fun a b => by
        simp only [Bool.or_eq_true, decide_eq_true_eq, ge_iff_le]; omega)
      (firebasePosts.map .firebase ++ supabasePosts.map .supabase)
    refine h.imp ?_
    intro a b hab
    simpa [ge_iff_le] using of_decide_eq_true hab

end Socialm.UnifiedFeed

namespace Socialm

/-! ## Time formatting: `formatTimeAgo` and `formatTimeAgoMemoized` -/

namespace TimeAgo

/-- The time-related part of `LocalizedStrings`; only the `timeAgo` group is
exercised by the formatting functions. -/
structure TimeAgoStrings where
  now : String
  minutesAgo : Int → String
  hoursAgo : Int → String
  daysAgo : Int → String
  weeksAgo : Int → String
  monthsAgo : Int → String
  yearsAgo : Int → String

/-- The default `englishStrings.timeAgo` table. -/
def englishStrings : TimeAgoStrings where
  now := "now"
  minutesAgo := fun count => toString count ++ "m ago"
  hoursAgo := fun count => toString count ++ "h ago"
  daysAgo := fun count => toString count ++ "d ago"
  weeksAgo := fun count => toString count ++ "w ago"
  monthsAgo := fun count => toString count ++ "mo ago"
  yearsAgo := fun count => toString count ++ "y ago"

/-- The TS argument `date : Date | string`. -/
inductive DateInput where
  | str (s : String)
  | date (t : Int)

/-- Models `typeof date === 'string' ? date : date.toISOString()` — the cache key,
where `iso` models `Date.prototype.toISOString`. -/
def DateInput.key (iso : Int → String) : DateInput → String
  | .str s => s
  | .date t => iso t

/-- Models `typeof date === 'string' ? new Date(date) : date` — the target time in
milliseconds, where `parse` models the JS `Date` constructor on strings. -/
def DateInput.timeMs (parse : String → Int) : DateInput → Int
  | .str s => parse s
  | .date t => t

/-- Models `formatTimeAgo` on a target time: successive floored divisions of the
elapsed time, with the thresholds of the source (`Math.floor` on possibly
negative reals is floor division `Int.fdiv`). -/
def formatTimeAgo (strings : TimeAgoStrings) (nowMs targetMs : Int) : String :=
  let diffInSeconds := (nowMs - targetMs).fdiv 1000
  if diffInSeconds < 60 then strings.now
  else
    let diffInMinutes := diffInSeconds.fdiv 60
    if diffInMinutes < 60 then strings.minutesAgo diffInMinutes
    else
      let diffInHours := diffInMinutes.fdiv 60
      if diffInHours < 24 then strings.hoursAgo diffInHours
      else
        let diffInDays := diffInHours.fdiv 24
        if diffInDays < 7 then strings.daysAgo diffInDays
        else
          let diffInWeeks := diffInDays.fdiv 7
          if diffInWeeks < 4 then strings.weeksAgo diffInWeeks
          else
            let diffInMonths := diffInDays.fdiv 30
            if diffInMonths < 12 then strings.monthsAgo diffInMonths
            else strings.yearsAgo (diffInDays.fdiv 365)

/-- One value of the `timeFormatCache` map. -/
structure CacheEntry where
  result : String
  timestamp : Int
  deriving DecidableEq, Repr

/-- The module-level `timeFormatCache : Map<string, {result, timestamp}>`,
as an insertion-ordered association list. -/
def Cache := List (String × CacheEntry)

/-- Models `Map.prototype.get`. -/
def cacheGet (cache : Cache) (k : String) : Option CacheEntry :=
  (cache.find? (fun e => e.1 = k)).map (·.2)

/-- Models `Map.prototype.set`: replaces the value in place if the key is present,
otherwise appends a new entry. -/
def cacheSet (cache : Cache) (k : String) (v : CacheEntry) : Cache :=
  match cache with
  | [] => [(k, v)]
  | (k', v') :: rest =>
    if k' = k then (k, v) :: rest else (k', v') :: cacheSet rest k v

/-- Models `CACHE_DURATION = 60000` (one minute). -/
def CACHE_DURATION : Int := 60000

/-- The fall-through path of `formatTimeAgoMemoized` (source lines after the
cache check): compute `formatTimeAgo`, store it under the date string with
the current timestamp, and — when the map has grown past 1000 entries —
evict entries whose timestamp is strictly below `now - CACHE_DURATION`. -/
def computeAndStore (parse : String → Int) (strings : TimeAgoStrings)
    (date : DateInput) (dateString : String) (nowMs : Int) (cache : Cache) :
    String × Cache :=
  let result := formatTimeAgo strings nowMs (date.timeMs parse)
  let cache1 := cacheSet cache dateString ⟨result, nowMs⟩
  let cache2 :=
    if cache1.length > 1000 then
      cache1.filter (fun e => ¬ e.2.timestamp < nowMs - CACHE_DURATION)
    else cache1
  (result, cache2)

/-- Models `formatTimeAgoMemoized`: returns the cached string when a cache entry for
the date string exists and is younger than `CACHE_DURATION`, otherwise falls
through to `computeAndStore`.  `nowMs` is `Date.now()` at the call. -/
def formatTimeAgoMemoized (parse : String → Int) (iso : Int → String)
    (strings : TimeAgoStrings) (date : DateInput) (nowMs : Int)
    (cache : Cache) : String × Cache :=
  let dateString := date.key iso
  match cacheGet cache dateString with
  | some cached =>
    if nowMs - cached.timestamp < CACHE_DURATION then (cached.result, cache)
    else computeAndStore parse strings date dateString nowMs cache
  | none => computeAndStore parse strings date dateString nowMs cache

/-- The map update `cacheSet` really stores the given entry under its key. -/
theorem cacheGet_cacheSet (cache : Cache) (k : String) (v : CacheEntry) :
    cacheGet (cacheSet cache k v) k = some v := by
  induction cache with
  | nil => simp [cacheGet, cacheSet, List.find?]
  | cons hd tl ih =>
    by_cases h : hd.1 = k
    · simp [cacheGet, cacheSet, h, List.find?]
    · simpa [cacheGet, cacheSet, h, List.find?] using ih

/-- An entry that is present and survives the filter is still found, provided
every entry is either kept or has a key other than the lookup key when it is
the first match.  Specialized to the eviction predicate: the entry stored at
timestamp `nowMs` survives eviction. -/
theorem cacheGet_filter_of_timestamp (C : Cache) (k : String) (res : String)
    (nowMs : Int)
    (hmem : cacheGet C k = some ⟨res, nowMs⟩) :
    cacheGet (C.filter (fun e => ¬ e.2.timestamp < nowMs - CACHE_DURATION)) k
      = some ⟨res, nowMs⟩ := by
  induction C with
  | nil => simp [cacheGet, List.find?] at hmem
  | cons hd tl ih =>
    by_cases hk : hd.1 = k
    · have hv : hd.2 = ⟨res, nowMs⟩ := by
        simp [cacheGet, List.find?, hk] at hmem
        exact hmem
      have hkeep : ¬ hd.2.timestamp < nowMs - CACHE_DURATION := by
        rw [hv]
        show ¬ nowMs < nowMs - CACHE_DURATION
        simp only [CACHE_DURATION]
        omega
      rw [List.filter_cons, if_pos (by simp only [decide_eq_true_eq]; omega)]
      simp [cacheGet, List.find?, hk, hv]
    · have hmem' : cacheGet tl k = some ⟨res, nowMs⟩ := by
        simpa [cacheGet, List.find?, hk] using hmem
      rw [List.filter_cons]
      by_cases hkeep : hd.2.timestamp < nowMs - CACHE_DURATION
      · rw [if_neg (by simp only [decide_eq_true_eq]; omega)]
        exact ih hmem'
      · rw [if_pos (by simp only [decide_eq_true_eq]; omega)]
        simpa [cacheGet, List.find?, hk] using ih hmem'

/-- The fall-through `computeAndStore` returns the fresh `formatTimeAgo` value and the new
cache maps the date string to that value stamped `nowMs`. -/
theorem computeAndStore_spec (parse : String → Int)
    (strings : TimeAgoStrings) (date : DateInput) (dateString : String)
    (nowMs : Int) (cache : Cache) :
    (computeAndStore parse strings date dateString nowMs cache).1
        = formatTimeAgo strings nowMs (date.timeMs parse) ∧
      cacheGet (computeAndStore parse strings date dateString nowMs cache).2
          dateString
        = some ⟨formatTimeAgo strings nowMs (date.timeMs parse), nowMs⟩ := by
  constructor
  · rfl
  · have hset := cacheGet_cacheSet cache dateString
      ⟨formatTimeAgo strings nowMs (date.timeMs parse), nowMs⟩
    simp only [computeAndStore]
    split
    · exact cacheGet_filter_of_timestamp _ _ _ _ hset
    · exact hset

end TimeAgo

end Socialm

namespace Socialm.TimeAgo

/-- C6: `formatTimeAgoMemoized` caches by date string with a stored
timestamp.  A call returns the cached string (and leaves the cache untouched)
if and only if a cache entry for the date string exists and its age is
strictly below 60000 ms; otherwise it computes `formatTimeAgo` at the same
instant and stores that result under the date string with the current
timestamp.  In particular, on a cold cache (no entry for the date string) the
returned string is exactly `formatTimeAgo` evaluated at the same instant. -/
theorem formatTimeAgoMemoized_cache_spec (parse : String → Int)
    (iso : Int → String) (strings : TimeAgoStrings) (date : DateInput)
    (nowMs : Int) (cache : Cache) :
    let r := formatTimeAgoMemoized parse iso strings date nowMs cache
    match cacheGet cache (date.key iso) with
    | some cached =>
      if nowMs - cached.timestamp < CACHE_DURATION then
        r = (cached.result, cache)
      else
        r.1 = formatTimeAgo strings nowMs (date.timeMs parse) ∧
          cacheGet r.2 (date.key iso) = some ⟨r.1, nowMs⟩
    | none =>
      r.1 = formatTimeAgo strings nowMs (date.timeMs parse) ∧
        cacheGet r.2 (date.key iso) = some ⟨r.1, nowMs⟩ := by
  intro r
  have hcs := computeAndStore_spec parse strings date (date.key iso) nowMs cache
  cases hget : cacheGet cache (date.key iso) with
  | some cached =>
    by_cases hfresh : nowMs - cached.timestamp < CACHE_DURATION
    · simp only [hget, hfresh, if_pos]
      show formatTimeAgoMemoized parse iso strings date nowMs cache = _
      simp [formatTimeAgoMemoized, hget, hfresh]
    · simp only [hget, hfresh, if_neg, not_false_iff]
      have hr : r = computeAndStore parse strings date (date.key iso) nowMs cache := by
        simp [r, formatTimeAgoMemoized, hget, hfresh]
      rw [hr]
      exact ⟨hcs.1, hcs.1 ▸ hcs.2⟩
  | none =>
    simp only [hget]
    have hr : r = computeAndStore parse strings date (date.key iso) nowMs cache := by
      simp [r, formatTimeAgoMemoized, hget]
    rw [hr]
    exact ⟨hcs.1, hcs.1 ▸ hcs.2⟩

end Socialm.TimeAgo

namespace Socialm

/-! ## List windowing: `PerformanceOptimizer.getWindowedItems` -/

namespace Windowing

/-- Models `Math.ceil(a / b)` for integral `a` and positive integral `b`. -/
def jsCeilDiv (a b : Int) : Int := -((-a).fdiv b)

/-- Models `Array.prototype.slice(start, stop)`: negative arguments count from the
end, and both are clamped into `[0, length]`. -/
def jsSlice {α : Type} (l : List α) (start stop : Int) : List α :=
  let n : Int := l.length
  let s := if start < 0 then max (n + start) 0 else min start n
  let e := if stop < 0 then max (n + stop) 0 else min stop n
  (l.drop s.toNat).take (e - s).toNat

/-- The record returned by `getWindowedItems`. -/
structure WindowResult (α : Type) where
  items : List α
  startIndex : Int
  endIndex : Int
  totalHeight : Int
  deriving DecidableEq, Repr

/-- Models `PerformanceOptimizer.getWindowedItems`: computes the visible index range
from the scroll offset, pads it by `overscan`, clamps it to the array bounds
and slices the array (`Math.floor` is `Int.fdiv`, `Math.ceil` is
`jsCeilDiv`). -/
def getWindowedItems {α : Type} (items : List α)
    (scrollTop containerHeight itemHeight overscan : Int) : WindowResult α :=
  let totalItems : Int := items.length
  let totalHeight := totalItems * itemHeight
  let visibleStartIndex := scrollTop.fdiv itemHeight
  let visibleEndIndex :=
    min (jsCeilDiv (scrollTop + containerHeight) itemHeight) (totalItems - 1)
  let startIndex := max 0 (visibleStartIndex - overscan)
  let endIndex := min (totalItems - 1) (visibleEndIndex + overscan)
  { items := jsSlice items startIndex (endIndex + 1)
    startIndex := startIndex
    endIndex := endIndex
    totalHeight := totalHeight }

/-- Floor division bound: `a.fdiv b ≤ i` exactly when `a < (i + 1) * b`. -/
theorem fdiv_le_iff_lt_mul {a b i : Int} (hb : 0 < b) :
    a.fdiv b ≤ i ↔ a < (i + 1) * b := by
  have heq := Int.fmod_add_fdiv a b
  have hr0 := Int.fmod_nonneg' a hb
  have hrb := Int.fmod_lt_of_pos a hb
  constructor
  · intro h
    have hm : b * a.fdiv b ≤ b * i := by
      exact mul_le_mul_of_nonneg_left h hb.le
    nlinarith [hm]
  · intro h
    by_contra hcon
    push_neg at hcon
    have hm : b * (i + 1) ≤ b * a.fdiv b :=
      mul_le_mul_of_nonneg_left hcon hb.le
    nlinarith [hm]

/-- Floor division bound: `i ≤ a.fdiv b` exactly when `i * b ≤ a`. -/
theorem le_fdiv_iff_mul_le {a b i : Int} (hb : 0 < b) :
    i ≤ a.fdiv b ↔ i * b ≤ a := by
  have heq := Int.fmod_add_fdiv a b
  have hr0 := Int.fmod_nonneg' a hb
  have hrb := Int.fmod_lt_of_pos a hb
  constructor
  · intro h
    have hm : b * i ≤ b * a.fdiv b := mul_le_mul_of_nonneg_left h hb.le
    nlinarith [hm]
  · intro h
    have hlt : i * b < (a.fdiv b + 1) * b := by
      calc i * b ≤ a := h
        _ < (a.fdiv b + 1) * b := by nlinarith
    exact Int.lt_add_one_iff.mp ((mul_lt_mul_right hb).mp hlt)

/-- Ceiling division bound: `i ≤ jsCeilDiv a b` exactly when
`(i - 1) * b < a`. -/
theorem le_jsCeilDiv_iff {a b i : Int} (hb : 0 < b) :
    i ≤ jsCeilDiv a b ↔ (i - 1) * b < a := by
  unfold jsCeilDiv
  rw [le_neg, fdiv_le_iff_lt_mul hb]
  constructor <;> intro h <;> nlinarith

end Windowing

end Socialm

namespace Socialm.Windowing

/-- C10, counterexample: with a scroll offset past the end of the content
(`items = [1,2,3]`, `itemHeight = 10`, `scrollTop = 1000`,
`containerHeight = 10`, `overscan = 0` — all within the claim's hypotheses),
`getWindowedItems` returns `startIndex = 100 > endIndex = 2`, violating the
claimed `startIndex ≤ endIndex`, and returns no items. -/
theorem getWindowedItems_out_of_range :
    let w := getWindowedItems [1, 2, 3] 1000 10 10 0
    w.startIndex = 100 ∧ w.endIndex = 2 ∧ w.items = [] ∧
      ¬ w.startIndex ≤ w.endIndex := by
  decide

/-- C10, amended: under the claim's hypotheses strengthened by
`scrollTop < items.length * itemHeight` (the viewport starts inside the
content — the counterexample shows the original claim fails without it),
`getWindowedItems` is a correct window: `0 ≤ startIndex ≤ endIndex <
items.length`, the returned items are exactly the contiguous slice
`items[startIndex..endIndex]`, every item whose pixel range intersects the
viewport lies in `[startIndex, endIndex]`, and
`totalHeight = items.length * itemHeight`. -/
theorem getWindowedItems_correct_window {α : Type} (items : List α)
    (scrollTop containerHeight itemHeight overscan : Int)
    (hne : items ≠ [])
    (hh : 0 < itemHeight) (hs : 0 ≤ scrollTop) (hc : 0 ≤ containerHeight)
    (hov : 0 ≤ overscan)
    (hin : scrollTop < items.length * itemHeight) :
    let w : WindowResult α :=
      getWindowedItems items scrollTop containerHeight itemHeight overscan
    (0 ≤ w.startIndex ∧ w.startIndex ≤ w.endIndex ∧
        w.endIndex < items.length) ∧
      w.items = (items.drop w.startIndex.toNat).take
        (w.endIndex.toNat + 1 - w.startIndex.toNat) ∧
      (∀ i : Int, 0 ≤ i → i < items.length →
        max (i * itemHeight) scrollTop
            < min ((i + 1) * itemHeight) (scrollTop + containerHeight) →
        w.startIndex ≤ i ∧ i ≤ w.endIndex) ∧
      w.totalHeight = items.length * itemHeight := by
  intro w
  have hn1 : (1 : Int) ≤ items.length := by
    have : items.length ≠ 0 := fun h => hne (List.length_eq_zero.mp h)
    omega
  set n : Int := (items.length : Int) with hn
  set vS : Int := scrollTop.fdiv itemHeight with hvS
  set ce : Int := jsCeilDiv (scrollTop + containerHeight) itemHeight with hce
  set vE : Int := min ce (n - 1) with hvE
  set si : Int := max 0 (vS - overscan) with hsi
  set ei : Int := min (n - 1) (vE + overscan) with hei
  have hw : w = ⟨jsSlice items si (ei + 1), si, ei, n * itemHeight⟩ := rfl
  -- basic bounds on the visible range
  have hvS0 : 0 ≤ vS := Int.fdiv_nonneg hs hh.le
  have hvSn : vS ≤ n - 1 := by
    rw [hvS, fdiv_le_iff_lt_mul hh]
    nlinarith
  have hvSh : vS * itemHeight ≤ scrollTop :=
    (le_fdiv_iff_mul_le hh).mp (le_of_eq hvS)
  have hceS : vS ≤ ce := by
    rw [hce, le_jsCeilDiv_iff hh]
    nlinarith
  have hvES : vS ≤ vE := le_min hceS hvSn
  have hsi_le : si ≤ vS := by omega
  have hei_ge : vE ≤ ei := by omega
  have hbounds : 0 ≤ si ∧ si ≤ ei ∧ ei < n := by
    refine ⟨le_max_left _ _, by omega, by omega⟩
  refine ⟨by rw [hw]; exact hbounds, ?_, ?_, by rw [hw]⟩
  · -- the items are the slice from `si` to `ei`
    rw [hw]
    show jsSlice items si (ei + 1) = _
    unfold jsSlice
    have h1 : ¬ si < 0 := by omega
    have h2 : ¬ ei + 1 < 0 := by omega
    have h3 : min si (items.length : Int) = si := by omega
    have h4 : min (ei + 1) (items.length : Int) = ei + 1 := by omega
    simp only [h1, h2, if_neg, not_false_iff, h3, h4]
    congr 1
    omega
  · -- every visible item index is inside the returned range
    intro i hi0 hin' hvis
    rw [hw]
    show si ≤ i ∧ i ≤ ei
    have hvis1 : i * itemHeight < scrollTop + containerHeight :=
      lt_of_le_of_lt (le_max_left _ _) (hvis.trans_le (min_le_right _ _))
    have hvis2 : scrollTop < (i + 1) * itemHeight :=
      lt_of_le_of_lt (le_max_right _ _) (hvis.trans_le (min_le_left _ _))
    have hiS : vS ≤ i := by
      rw [hvS, fdiv_le_iff_lt_mul hh]
      exact hvis2
    have hiC : i ≤ ce := by
      rw [hce, le_jsCeilDiv_iff hh]
      nlinarith
    have hsi_ub : si ≤ vS := by
      rw [hsi]
      exact max_le hvS0 (by linarith)
    have hiE : i ≤ vE := by
      rw [hvE]
      exact le_min hiC (by linarith)
    constructor
    · linarith
    · rw [hei]
      exact le_min (by linarith) (by linarith)

/-- Closed witness for `getWindowedItems_correct_window` at a concrete
input. -/
theorem getWindowedItems_correct_window_witness :
    ([10, 20, 30] : List Nat) ≠ [] ∧ (0 : Int) < 10 ∧ (0 : Int) ≤ 5 ∧
      (0 : Int) ≤ 10 ∧ (0 : Int) ≤ 1 ∧
      (5 : Int) < ([10, 20, 30] : List Nat).length * 10 ∧
      (let w : WindowResult Nat :=
          getWindowedItems ([10, 20, 30] : List Nat) 5 10 10 1;
        (0 ≤ w.startIndex ∧ w.startIndex ≤ w.endIndex ∧
            w.endIndex < ([10, 20, 30] : List Nat).length) ∧
          w.items = (([10, 20, 30] : List Nat).drop w.startIndex.toNat).take
            (w.endIndex.toNat + 1 - w.startIndex.toNat) ∧
          (∀ i : Int, 0 ≤ i → i < ([10, 20, 30] : List Nat).length →
            max (i * 10) 5 < min ((i + 1) * 10) (5 + 10) →
            w.startIndex ≤ i ∧ i ≤ w.endIndex) ∧
          w.totalHeight = ([10, 20, 30] : List Nat).length * 10) :=
  ⟨by decide, by decide, by decide, by decide, by decide, by decide,
    getWindowedItems_correct_window [10, 20, 30] 5 10 10 1 (by decide)
      (by decide) (by decide) (by decide) (by decide) (by decide)⟩

end Socialm.Windowing

namespace Socialm

/-! ## Post creation: `FirebasePostService.createPost` -/

namespace CreatePost

/-- The external calls `createPost` can attempt, in source order: the
Firebase Storage upload, the Firestore `addDoc`, the Supabase Storage upload
and the Supabase `posts` insert. -/
inductive Step where
  | fbUpload
  | fbAddDoc
  | sbUpload
  | sbInsert
  deriving DecidableEq, Repr

/-- Outcomes of the external calls, fixed before the run: `fbUpload` is the
download URL when the Firebase upload chain succeeds, `fbAddDoc` the new
document id, `sbUpload` whether the Supabase storage upload returns no error
(with `sbPublicUrl` the public URL then used), and `sbInsert` the id of the
inserted row. -/
structure Oracle where
  fbUpload : Option String
  fbAddDoc : Option String
  sbUpload : Bool
  sbPublicUrl : String
  sbInsert : Option String

/-- The observable backend state: uploaded storage objects and created post
documents / rows on each side. -/
structure BackendState where
  fbStorage : List String
  fbPosts : List String
  sbStorage : List String
  sbPosts : List String
  deriving DecidableEq, Repr

/-- The Supabase fallback branch of `createPost` (the inner `try`): upload
the image if one was given — an upload error is *not* thrown, the insert just
proceeds with a null image URL — then insert the post row; an insert error
becomes `'Failed to create post'`. -/
def createPostFallback (o : Oracle) (imageFile : Option String)
    (st : BackendState) : Except String String × BackendState × List Step :=
  let (st1, trace1) :=
    match imageFile with
    | some f =>
      if o.sbUpload then ({ st with sbStorage := st.sbStorage ++ [f] }, [Step.sbUpload])
      else (st, [Step.sbUpload])
    | none => (st, [])
  match o.sbInsert with
  | some rowId =>
    (Except.ok rowId, { st1 with sbPosts := st1.sbPosts ++ [rowId] },
      trace1 ++ [Step.sbInsert])
  | none => (Except.error "Failed to create post", st1, trace1 ++ [Step.sbInsert])

/-- Models `FirebasePostService.createPost`: try the Firebase image upload and
`addDoc`; any failure there falls through to the Supabase branch.  The third
component is the list of external calls attempted, in order. -/
def createPost (o : Oracle) (imageFile : Option String) (st : BackendState) :
    Except String String × BackendState × List Step :=
  match imageFile with
  | some f =>
    match o.fbUpload with
    | some _ =>
      (match o.fbAddDoc with
      | some docId =>
        (Except.ok docId,
          { st with fbStorage := st.fbStorage ++ [f],
                    fbPosts := st.fbPosts ++ [docId] },
          [Step.fbUpload, Step.fbAddDoc])
      | none =>
        let (r, st', tr) := createPostFallback o imageFile
          { st with fbStorage := st.fbStorage ++ [f] }
        (r, st', [Step.fbUpload, Step.fbAddDoc] ++ tr))
    | none =>
      let (r, st', tr) := createPostFallback o imageFile st
      (r, st', [Step.fbUpload] ++ tr)
  | none =>
    match o.fbAddDoc with
    | some docId =>
      (Except.ok docId, { st with fbPosts := st.fbPosts ++ [docId] },
        [Step.fbAddDoc])
    | none =>
      let (r, st', tr) := createPostFallback o imageFile st
      (r, st', [Step.fbAddDoc] ++ tr)

/-- The Firebase branch of `createPost` fails (and control reaches the
`catch`) exactly when the image upload chain or `addDoc` throws. -/
def firebaseFails (o : Oracle) (imageFile : Option String) : Prop :=
  (imageFile ≠ none ∧ o.fbUpload = none) ∨ o.fbAddDoc = none

instance (o : Oracle) (imageFile : Option String) :
    Decidable (firebaseFails o imageFile) := by
  unfold firebaseFails
  infer_instance

/-- Whether a step is one of the two Supabase calls. -/
def Step.isSupabase : Step → Bool
  | .sbUpload => true
  | .sbInsert => true
  | _ => false

end CreatePost

end Socialm

namespace Socialm.CreatePost

/-- C2: in `createPost` the Firebase write is attempted first (every Firebase
step precedes every Supabase step in the attempt trace) and the Supabase
write is attempted exactly when the Firebase branch fails; the call returns
the error `'Failed to create post'` exactly when both branches fail; a post
document/row is created in at most one backend (the Firebase post list and
the Supabase post list never both grow); and there is no compensating
cleanup: when the Supabase storage upload succeeds but the subsequent insert
fails, the uploaded image remains in Supabase storage while the call
errors. -/
theorem createPost_dual_write_fallback (o : Oracle) (imageFile : Option String)
    (st : BackendState) :
    let r := createPost o imageFile st
    (r.2.2 = r.2.2.filter (fun s => ¬ s.isSupabase)
        ++ r.2.2.filter (fun s => s.isSupabase)) ∧
      (Step.sbInsert ∈ r.2.2 ↔ firebaseFails o imageFile) ∧
      (r.1 = Except.error "Failed to create post" ↔
        firebaseFails o imageFile ∧ o.sbInsert = none) ∧
      (∀ e, r.1 = Except.error e → e = "Failed to create post") ∧
      (r.2.1.fbPosts = st.fbPosts ∨ r.2.1.sbPosts = st.sbPosts) ∧
      (∀ f, imageFile = some f → firebaseFails o imageFile →
        o.sbUpload = true → o.sbInsert = none →
        r.1 = Except.error "Failed to create post" ∧
          f ∈ r.2.1.sbStorage ∧ r.2.1.sbPosts = st.sbPosts) := by
  intro r
  have hr : r = createPost o imageFile st := rfl
  clear_value r
  subst hr
  rcases imageFile with _ | f <;>
    rcases hfb : o.fbUpload with _ | url <;>
      rcases hdoc : o.fbAddDoc with _ | docId <;>
        rcases hsb : o.sbUpload <;>
          rcases hins : o.sbInsert with _ | rowId <;>
            simp [createPost, createPostFallback, firebaseFails, hfb, hdoc,
              hsb, hins, Step.isSupabase, List.filter_cons, List.filter_nil]

end Socialm.CreatePost

namespace Socialm

/-! ## Dashboard post creation: the `comments_enabled` insert fallback -/

namespace DashboardPost

/-- Models `String.contains`-style substring check used to model
`error.message?.includes('comments_enabled')`, on character lists. -/
def charsStartWith : List Char → List Char → Bool
  | _, [] => true
  | [], _ :: _ => false
  | h :: hs, n :: ns => h = n && charsStartWith hs ns

/-- JS `String.prototype.includes`: the needle occurs contiguously somewhere
in the haystack. -/
def strIncludes (hay needle : String) : Bool :=
  go hay.toList needle.toList
where
  go : List Char → List Char → Bool
  | [], needle => charsStartWith [] needle
  | h :: t, needle => charsStartWith (h :: t) needle || go t needle

/-- A Supabase error object; `message` is optional, matching the
`error.message?.` optional chaining in the source. -/
structure SbError where
  message : Option String
  deriving DecidableEq, Repr

/-- The two insert shapes `handlePost` can attempt against the `posts`
table. -/
inductive InsertAttempt where
  | withCommentsEnabled
  | withoutCommentsEnabled
  deriving DecidableEq, Repr

/-- Outcomes of the two possible inserts: `none` means success. -/
structure InsertOracle where
  insertWithComments : Option SbError
  insertPlain : Option SbError

/-- Models `error.message?.includes('comments_enabled')` as a Bool (undefined
message is falsy). -/
def errorMentionsCommentsEnabled (e : SbError) : Bool :=
  match e.message with
  | some m => strIncludes m "comments_enabled"
  | none => false

/-- The insert block of `handlePost` in `Dashboard.tsx`: insert with
`comments_enabled`; on an error whose message includes `'comments_enabled'`
retry once without the column, otherwise rethrow; the second component lists
the attempts made, in order. -/
def handleCreatePostInserts (o : InsertOracle) :
    Except SbError Unit × List InsertAttempt :=
  match o.insertWithComments with
  | none => (Except.ok (), [InsertAttempt.withCommentsEnabled])
  | some e =>
    if errorMentionsCommentsEnabled e then
      match o.insertPlain with
      | none => (Except.ok (),
          [InsertAttempt.withCommentsEnabled, InsertAttempt.withoutCommentsEnabled])
      | some e2 => (Except.error e2,
          [InsertAttempt.withCommentsEnabled, InsertAttempt.withoutCommentsEnabled])
    else (Except.error e, [InsertAttempt.withCommentsEnabled])

end DashboardPost

end Socialm

namespace Socialm.DashboardPost

/-- C5: the fallback insert without `comments_enabled` is attempted if and
only if the first insert failed with an error whose message contains the
substring `'comments_enabled'`; for every other error the error itself is
rethrown and no second insert is attempted. -/
theorem handleCreatePostInserts_fallback_iff (o : InsertOracle) :
    let r := handleCreatePostInserts o
    (InsertAttempt.withoutCommentsEnabled ∈ r.2 ↔
        ∃ e, o.insertWithComments = some e ∧
          errorMentionsCommentsEnabled e = true) ∧
      (∀ e, o.insertWithComments = some e →
        errorMentionsCommentsEnabled e = false →
        r.1 = Except.error e ∧ r.2 = [InsertAttempt.withCommentsEnabled]) := by
  intro r
  have hr : r = handleCreatePostInserts o := rfl
  clear_value r
  subst hr
  rcases h1 : o.insertWithComments with _ | e
  · simp [handleCreatePostInserts, h1]
  · rcases hm : errorMentionsCommentsEnabled e
    · simp [handleCreatePostInserts, h1, hm]
    · rcases h2 : o.insertPlain with _ | e2 <;>
        simp [handleCreatePostInserts, h1, hm, h2]

/-- Closed witness for `handleCreatePostInserts_fallback_iff`: an oracle
whose first insert fails with a message not mentioning the column. -/
theorem handleCreatePostInserts_fallback_iff_witness :
    let o : InsertOracle := ⟨some ⟨some "permission denied"⟩, none⟩
    let r := handleCreatePostInserts o
    (InsertAttempt.withoutCommentsEnabled ∈ r.2 ↔
        ∃ e, o.insertWithComments = some e ∧
          errorMentionsCommentsEnabled e = true) ∧
      (∀ e, o.insertWithComments = some e →
        errorMentionsCommentsEnabled e = false →
        r.1 = Except.error e ∧ r.2 = [InsertAttempt.withCommentsEnabled]) :=
  handleCreatePostInserts_fallback_iff ⟨some ⟨some "permission denied"⟩, none⟩

end Socialm.DashboardPost

namespace Socialm

/-! ## `useOptimizedQueries`: per-call error handling -/

namespace OptimizedQueries

/-- The outcome of an external call: success with a (possibly null) value,
or a thrown error. -/
def Call (α : Type) := Except Unit α

/-- Models `fetchOptimizedFeed`: bail out with `[]` when there is no user, call the
`get_user_feed` RPC once, return `data || []`, and return `[]` from the
`catch` on any error.  The second component counts RPC calls made. -/
def fetchOptimizedFeed {α : Type} (auth : Call (Option String))
    (rpc : Call (Option (List α))) : List α × Nat :=
  match auth with
  | Except.error _ => ([], 0)
  | Except.ok none => ([], 0)
  | Except.ok (some _) =>
    match rpc with
    | Except.error _ => ([], 1)
    | Except.ok d => (d.getD [], 1)

/-- Models `toggleLikeOptimized`: call the `toggle_post_like` RPC once and return
`data?.[0] || null`, with `null` from the `catch` on any error. -/
def toggleLikeOptimized {α : Type} (auth : Call (Option String))
    (rpc : Call (Option (List α))) : Option α × Nat :=
  match auth with
  | Except.error _ => (none, 0)
  | Except.ok none => (none, 0)
  | Except.ok (some _) =>
    match rpc with
    | Except.error _ => (none, 1)
    | Except.ok d => ((d.getD []).head?, 1)

/-- Models `getFriendSuggestions`: same shape as `fetchOptimizedFeed` over the
`get_friend_suggestions` RPC. -/
def getFriendSuggestions {α : Type} (auth : Call (Option String))
    (rpc : Call (Option (List α))) : List α × Nat :=
  match auth with
  | Except.error _ => ([], 0)
  | Except.ok none => ([], 0)
  | Except.ok (some _) =>
    match rpc with
    | Except.error _ => ([], 1)
    | Except.ok d => (d.getD [], 1)

/-- Models `createNotificationsBatch`: call the `create_notification_batch` RPC
once; `true` on success, `false` from the `catch` on any error. -/
def createNotificationsBatch (rpc : Call Unit) : Bool × Nat :=
  match rpc with
  | Except.error _ => (false, 1)
  | Except.ok _ => (true, 1)

/-- Models `fetchStoriesOptimized`: one `stories` select, `data || []`, and `[]`
from the `catch` on any error. -/
def fetchStoriesOptimized {α : Type} (query : Call (Option (List α))) :
    List α × Nat :=
  match query with
  | Except.error _ => ([], 1)
  | Except.ok d => (d.getD [], 1)

/-- Models `fetchMessagesOptimized`: bail out with `[]` when there is no user, one
`messages` select, `(data || []).reverse()`, and `[]` from the `catch` on
any error. -/
def fetchMessagesOptimized {α : Type} (auth : Call (Option String))
    (query : Call (Option (List α))) : List α × Nat :=
  match auth with
  | Except.error _ => ([], 0)
  | Except.ok none => ([], 0)
  | Except.ok (some _) =>
    match query with
    | Except.error _ => ([], 1)
    | Except.ok d => ((d.getD []).reverse, 1)

end OptimizedQueries

end Socialm

namespace Socialm.OptimizedQueries

/-- C7: every data-fetching operation of `useOptimizedQueries` catches its
own errors and returns a total fallback value instead of propagating: on a
failing underlying request (or failing auth lookup) `fetchOptimizedFeed`,
`getFriendSuggestions`, `fetchStoriesOptimized` and `fetchMessagesOptimized`
return `[]`, `toggleLikeOptimized` returns `null` and
`createNotificationsBatch` returns `false`; and no operation ever issues its
underlying call more than once (no retry). -/
theorem useOptimizedQueries_catch_and_no_retry {α : Type}
    (auth : Call (Option String)) (rpc : Call (Option (List α)))
    (rpcU : Call Unit) :
    ((fetchOptimizedFeed auth (Except.error ())).1 = ([] : List α) ∧
        (fetchOptimizedFeed (Except.error ()) rpc).1 = ([] : List α) ∧
        (fetchOptimizedFeed auth rpc).2 ≤ 1) ∧
      ((toggleLikeOptimized auth (Except.error ())).1 = (none : Option α) ∧
        (toggleLikeOptimized (Except.error ()) rpc).1 = (none : Option α) ∧
        (toggleLikeOptimized auth rpc).2 ≤ 1) ∧
      ((getFriendSuggestions auth (Except.error ())).1 = ([] : List α) ∧
        (getFriendSuggestions (Except.error ()) rpc).1 = ([] : List α) ∧
        (getFriendSuggestions auth rpc).2 ≤ 1) ∧
      ((createNotificationsBatch (Except.error ())).1 = false ∧
        (createNotificationsBatch rpcU).2 ≤ 1) ∧
      ((fetchStoriesOptimized (Except.error () : Call (Option (List α)))).1
          = ([] : List α) ∧
        (fetchStoriesOptimized rpc).2 ≤ 1) ∧
      ((fetchMessagesOptimized auth (Except.error ())).1 = ([] : List α) ∧
        (fetchMessagesOptimized (Except.error ()) rpc).1 = ([] : List α) ∧
        (fetchMessagesOptimized auth rpc).2 ≤ 1) := by
  rcases auth with _ | u
  · rcases rpc with _ | d <;> rcases rpcU with _ | _ <;>
      simp [fetchOptimizedFeed, toggleLikeOptimized, getFriendSuggestions,
        createNotificationsBatch, fetchStoriesOptimized, fetchMessagesOptimized]
  · rcases u with _ | u' <;> rcases rpc with _ | d <;> rcases rpcU with _ | _ <;>
      simp [fetchOptimizedFeed, toggleLikeOptimized, getFriendSuggestions,
        createNotificationsBatch, fetchStoriesOptimized, fetchMessagesOptimized]

end Socialm.OptimizedQueries

namespace Socialm

/-! ## Story views: `story_views` upsert and `increment_story_views` -/

namespace StoryViews

/-- A row of the `story_views` table (id, story_id, viewer_id, viewed_at);
the table carries `UNIQUE(story_id, viewer_id)`. -/
structure StoryView where
  id : Nat
  story_id : Nat
  viewer_id : Nat
  viewed_at : Int
  deriving DecidableEq, Repr

/-- A row of the `stories` table; `views_count` is a nullable integer
column. -/
structure Story where
  id : Nat
  user_id : Nat
  image_url : String
  caption : Option String
  views_count : Option Int
  created_at : Int
  expires_at : Int
  deriving DecidableEq, Repr

/-- Whether a `story_views` row conflicts on the `(story_id, viewer_id)`
unique key. -/
def viewMatches (sid vid : Nat) (r : StoryView) : Bool :=
  r.story_id == sid && r.viewer_id == vid

/-- The `UNIQUE(story_id, viewer_id)` constraint as a state invariant: no two
rows share the pair. -/
def atMostOnePerPair (rows : List StoryView) : Prop :=
  List.Pairwise
    (fun a b => ¬ (a.story_id = b.story_id ∧ a.viewer_id = b.viewer_id)) rows

instance (rows : List StoryView) : Decidable (atMostOnePerPair rows) := by
  unfold atMostOnePerPair
  infer_instance

/-- Models `supabase.from('story_views').upsert({...}, { onConflict:
'story_id,viewer_id' })`: on conflict the existing row is updated with the
payload (here: its `viewed_at` becomes the new timestamp, its generated `id`
is untouched), otherwise a new row is inserted with a fresh id. -/
def upsertStoryView (freshId sid vid : Nat) (t : Int)
    (rows : List StoryView) : List StoryView :=
  if rows.any (viewMatches sid vid) then
    rows.map (fun r =>
      if viewMatches sid vid r then { r with viewed_at := t } else r)
  else rows ++ [⟨freshId, sid, vid, t⟩]

/-- Models `markStoryAsViewed` from `UnifiedCommunityFeed.tsx`: add the story id to
the client-local viewed set and upsert the `story_views` row with the current
time `t`. -/
def markStoryAsViewed (freshId storyId userId : Nat) (t : Int)
    (viewedStories : List Nat) (rows : List StoryView) :
    List Nat × List StoryView :=
  let newViewedStories :=
    if viewedStories.contains storyId then viewedStories
    else viewedStories ++ [storyId]
  (newViewedStories, upsertStoryView freshId storyId userId t rows)

end StoryViews

end Socialm

namespace Socialm.StoryViews

/-- C3, counterexample: `markStoryAsViewed` for a pair that already has a
view row does *not* leave the set of `story_views` rows unchanged — the
upsert updates the conflicting row's `viewed_at` to the new call's
timestamp.  Row `(id 0, story 1, viewer 2, viewed_at 0)` becomes
`viewed_at 5` after a repeat view at time 5. -/
theorem markStoryAsViewed_updates_viewed_at :
    let rows : List StoryView := [⟨0, 1, 2, 0⟩]
    (markStoryAsViewed 9 1 2 5 [] rows).2 = [⟨0, 1, 2, 5⟩] ∧
      (markStoryAsViewed 9 1 2 5 [] rows).2 ≠ rows := by
  decide

/-- C3, amended: under the `UNIQUE(story_id, viewer_id)` invariant,
`markStoryAsViewed` preserves the invariant (at most one row per
`(story_id, viewer_id)` pair — it never creates a second row), and a repeat
call for a pair that already has a view row adds no row and removes no row:
the rows' identifying columns `(id, story_id, viewer_id)` are unchanged,
the conflicting row's `viewed_at` is set to the call time, every other row
is untouched — so the row set is unchanged exactly up to the refreshed
timestamp (and literally unchanged when the timestamp is unchanged). -/
theorem markStoryAsViewed_idempotent_rows (freshId sid vid : Nat) (t : Int)
    (viewed : List Nat) (rows : List StoryView)
    (hinv : atMostOnePerPair rows) :
    let r := (markStoryAsViewed freshId sid vid t viewed rows).2
    atMostOnePerPair r ∧
      ((∃ x ∈ rows, x.story_id = sid ∧ x.viewer_id = vid) →
        r.map (fun x => (x.id, x.story_id, x.viewer_id))
            = rows.map (fun x => (x.id, x.story_id, x.viewer_id)) ∧
          (∀ x ∈ rows, x.story_id = sid → x.viewer_id = vid →
            StoryView.mk x.id x.story_id x.viewer_id t ∈ r) ∧
          (∀ x ∈ rows, ¬ (x.story_id = sid ∧ x.viewer_id = vid) → x ∈ r) ∧
          ((∀ x ∈ rows, x.story_id = sid → x.viewer_id = vid →
              x.viewed_at = t) → r = rows)) := by
  intro r
  have hr : r = upsertStoryView freshId sid vid t rows := rfl
  clear_value r
  subst hr
  unfold upsertStoryView
  by_cases hany : rows.any (viewMatches sid vid)
  · rw [if_pos hany]
    constructor
    · -- the update keeps the key columns, so pair-uniqueness is preserved
      unfold atMostOnePerPair at hinv ⊢
      rw [List.pairwise_map]
      refine hinv.imp ?_
      intro a b hab
      by_cases hma : viewMatches sid vid a = true <;>
        by_cases hmb : viewMatches sid vid b = true <;>
          simp [hma, hmb] <;> exact fun h1 h2 => hab ⟨h1, h2⟩
    · intro _
      refine ⟨?_, ?_, ?_, ?_⟩
      · rw [List.map_map]
        refine List.map_congr_left ?_
        intro x _
        by_cases hm : viewMatches sid vid x = true <;> simp [hm]
      · intro x hx hsid hvid
        have hm : viewMatches sid vid x = true := by
          simp [viewMatches, hsid, hvid]
        have : (if viewMatches sid vid x then { x with viewed_at := t }
            else x) = StoryView.mk x.id x.story_id x.viewer_id t := by
          simp [hm]
        exact this ▸ List.mem_map_of_mem _ hx
      · intro x hx hnm
        have hm : viewMatches sid vid x = false := by
          simp [viewMatches]
          intro hsid
          intro hvid
          exact absurd ⟨hsid, hvid⟩ hnm
        have : (if viewMatches sid vid x then { x with viewed_at := t }
            else x) = x := by simp [hm]
        exact this ▸ List.mem_map_of_mem _ hx
      · intro hall
        have hcongr : rows.map (fun x =>
            if viewMatches sid vid x then { x with viewed_at := t } else x)
            = rows.map id := by
          refine List.map_congr_left ?_
          intro x hx
          by_cases hm : viewMatches sid vid x = true
          · have hpairx : x.story_id = sid ∧ x.viewer_id = vid := by
              simpa [viewMatches] using hm
            have hts := hall x hx hpairx.1 hpairx.2
            cases x
            simp_all
          · simp [hm]
        simpa using hcongr
  · rw [if_neg hany]
    constructor
    · -- a fresh pair is appended; it conflicts with no existing row
      unfold atMostOnePerPair at hinv ⊢
      rw [List.pairwise_append]
      refine ⟨hinv, List.pairwise_singleton _ _, ?_⟩
      intro x hx y hy
      have hy' : y = StoryView.mk freshId sid vid t := by
        simpa using hy
      subst hy'
      have hnm : viewMatches sid vid x = false := by
        rcases List.any_eq_false.mp (by simpa using hany) x hx with h
        simpa using h
      simp [viewMatches] at hnm
      intro hcon
      rcases hcon with ⟨h1, h2⟩
      simp at h1 h2
      exact absurd h2 (hnm h1)
    · intro hex
      exfalso
      rcases hex with ⟨x, hx, hsid, hvid⟩
      have := List.any_eq_false.mp (by simpa using hany) x hx
      simp [viewMatches, hsid, hvid] at this

/-- Closed witness for `markStoryAsViewed_idempotent_rows`: a single view row
for pair `(1, 2)` already stamped with the call time. -/
theorem markStoryAsViewed_idempotent_rows_witness :
    atMostOnePerPair [⟨0, 1, 2, 7⟩] ∧
      (let r := (markStoryAsViewed 9 1 2 7 [] [⟨0, 1, 2, 7⟩]).2;
        atMostOnePerPair r ∧
          ((∃ x ∈ [StoryView.mk 0 1 2 7], x.story_id = 1 ∧ x.viewer_id = 2) →
            r.map (fun x => (x.id, x.story_id, x.viewer_id))
                = [StoryView.mk 0 1 2 7].map
                  (fun x => (x.id, x.story_id, x.viewer_id)) ∧
              (∀ x ∈ [StoryView.mk 0 1 2 7], x.story_id = 1 → x.viewer_id = 2 →
                StoryView.mk x.id x.story_id x.viewer_id 7 ∈ r) ∧
              (∀ x ∈ [StoryView.mk 0 1 2 7],
                ¬ (x.story_id = 1 ∧ x.viewer_id = 2) → x ∈ r) ∧
              ((∀ x ∈ [StoryView.mk 0 1 2 7], x.story_id = 1 → x.viewer_id = 2 →
                  x.viewed_at = 7) → r = [⟨0, 1, 2, 7⟩]))) :=
  ⟨by decide,
    markStoryAsViewed_idempotent_rows 9 1 2 7 [] [⟨0, 1, 2, 7⟩]
      (by decide)⟩

end Socialm.StoryViews

namespace Socialm.StoryViews

/-- Models `increment_story_views` as (re)defined in migration
`20250621155547_odd_wood.sql`: `UPDATE stories SET views_count =
COALESCE(views_count, 0) + 1 WHERE id = story_uuid RETURNING views_count`,
returning `COALESCE(new_view_count, 0)` — `0` when no row matched. -/
def incrementStoryViews (sid : Nat) (stories : List Story) :
    Int × List Story :=
  let updated := stories.map (fun s =>
    if s.id == sid then { s with views_count := some (s.views_count.getD 0 + 1) }
    else s)
  let ret : Int :=
    match stories.find? (fun s => s.id == sid) with
    | some s => s.views_count.getD 0 + 1
    | none => 0
  (ret, updated)

/-- Key lookup: `find?` by a key returns the given element when the keys are
duplicate-free. -/
theorem find?_key_eq_of_nodup {α β : Type} [DecidableEq β] (l : List α)
    (key : α → β) (k : β) (s : α) (hs : s ∈ l) (hk : key s = k)
    (hnd : (l.map key).Nodup) :
    l.find? (fun x => key x == k) = some s := by
  induction l with
  | nil => cases hs
  | cons hd tl ih =>
    rcases List.mem_cons.mp hs with heq | htl
    · subst heq
      simp [List.find?, hk]
    · rw [List.map_cons] at hnd
      have hne : key hd ≠ k := by
        intro hcon
        have hmem : key s ∈ tl.map key := List.mem_map_of_mem key htl
        rw [hk] at hmem
        rw [hcon] at hnd
        exact (List.nodup_cons.mp hnd).1 hmem
      have hbe : (key hd == k) = false := by simpa using hne
      simp only [List.find?, hbe]
      exact ih htl (List.nodup_cons.mp hnd).2

end Socialm.StoryViews

namespace Socialm.StoryViews

/-- C9: `increment_story_views` (the `odd_wood` definition) touches only the
targeted story: when a story with the given id exists (ids being unique),
its `views_count` becomes its previous value — `NULL` read as `0` — plus
one with every other field intact, the new count is returned, and every
other story is unchanged; when no story matches, the function returns `0`
and the whole `stories` state is unchanged. -/
theorem incrementStoryViews_frame (sid : Nat) (stories : List Story)
    (hids : (stories.map Story.id).Nodup) :
    let r := incrementStoryViews sid stories
    r.2.length = stories.length ∧
      (∀ s ∈ stories, s.id = sid →
        r.1 = s.views_count.getD 0 + 1 ∧
          { s with views_count := some (s.views_count.getD 0 + 1) } ∈ r.2) ∧
      (∀ s ∈ stories, s.id ≠ sid → s ∈ r.2) ∧
      ((∀ s ∈ stories, s.id ≠ sid) → r.1 = 0 ∧ r.2 = stories) := by
  intro r
  have hr : r = incrementStoryViews sid stories := rfl
  clear_value r
  subst hr
  refine ⟨by simp [incrementStoryViews], ?_, ?_, ?_⟩
  · intro s hs hsid
    have hfind : stories.find? (fun x => x.id == sid) = some s :=
      find?_key_eq_of_nodup stories Story.id sid s hs hsid hids
    constructor
    · simp [incrementStoryViews, hfind]
    · have : (if s.id == sid then
          { s with views_count := some (s.views_count.getD 0 + 1) } else s)
          = { s with views_count := some (s.views_count.getD 0 + 1) } := by
        simp [hsid]
      exact this ▸ List.mem_map_of_mem _ hs
  · intro s hs hsid
    have : (if s.id == sid then
        { s with views_count := some (s.views_count.getD 0 + 1) } else s)
        = s := by
      simp [hsid]
    exact this ▸ List.mem_map_of_mem _ hs
  · intro hnone
    have hfind : stories.find? (fun x => x.id == sid) = none := by
      rw [List.find?_eq_none]
      intro x hx
      simpa using hnone x hx
    constructor
    · simp [incrementStoryViews, hfind]
    · show stories.map _ = stories
      have : stories.map (fun s =>
          if s.id == sid then
            { s with views_count := some (s.views_count.getD 0 + 1) }
          else s) = stories.map id := by
        refine List.map_congr_left ?_
        intro x hx
        simp [hnone x hx]
      simpa using this

/-- Closed witness for `incrementStoryViews_frame`: two stories, one with a
`NULL` count targeted by the call. -/
theorem incrementStoryViews_frame_witness :
    (([⟨1, 2, "a", none, none, 0, 9⟩, ⟨2, 3, "b", none, some 5, 0, 9⟩] :
        List Story).map Story.id).Nodup ∧
      (let r := incrementStoryViews 1
          [⟨1, 2, "a", none, none, 0, 9⟩, ⟨2, 3, "b", none, some 5, 0, 9⟩];
        r.2.length = 2 ∧
          (∀ s ∈ ([⟨1, 2, "a", none, none, 0, 9⟩,
              ⟨2, 3, "b", none, some 5, 0, 9⟩] : List Story), s.id = 1 →
            r.1 = s.views_count.getD 0 + 1 ∧
              { s with views_count := some (s.views_count.getD 0 + 1) } ∈ r.2) ∧
          (∀ s ∈ ([⟨1, 2, "a", none, none, 0, 9⟩,
              ⟨2, 3, "b", none, some 5, 0, 9⟩] : List Story), s.id ≠ 1 →
            s ∈ r.2) ∧
          ((∀ s ∈ ([⟨1, 2, "a", none, none, 0, 9⟩,
              ⟨2, 3, "b", none, some 5, 0, 9⟩] : List Story), s.id ≠ 1) →
            r.1 = 0 ∧ r.2 = [⟨1, 2, "a", none, none, 0, 9⟩,
              ⟨2, 3, "b", none, some 5, 0, 9⟩])) :=
  ⟨by decide,
    incrementStoryViews_frame 1
      [⟨1, 2, "a", none, none, 0, 9⟩, ⟨2, 3, "b", none, some 5, 0, 9⟩]
      (by decide)⟩

end Socialm.StoryViews

namespace Socialm.StoryViews

/-- Models `increment_story_views` as finally defined in migration
`20250622111537_gentle_harbor.sql`: insert the `(story, viewer)` row with
`ON CONFLICT (story_id, viewer_id) DO NOTHING` when a viewer is given, then
— unconditionally — `UPDATE stories SET views_count = views_count + 1 WHERE
id = story_uuid` (`NULL` propagates through the addition) and return
`COALESCE(new_view_count, 0)`. -/
def incrementStoryViewsTracked (sid : Nat) (viewer : Option Nat)
    (freshId : Nat) (t : Int) (stories : List Story)
    (views : List StoryView) : Int × List Story × List StoryView :=
  let views' :=
    match viewer with
    | some v =>
      if views.any (viewMatches sid v) then views
      else views ++ [⟨freshId, sid, v, t⟩]
    | none => views
  let updated := stories.map (fun s =>
    if s.id == sid then { s with views_count := s.views_count.map (· + 1) }
    else s)
  let ret : Int :=
    match stories.find? (fun s => s.id == sid) with
    | some s =>
      match s.views_count with
      | some c => c + 1
      | none => 0
    | none => 0
  (ret, updated, views')

/-- Models `handleStoryClick` from `UnifiedCommunityFeed.tsx` (database effects):
when the story is not the current user's own and the client-local viewed set
does not contain it, call the `increment_story_views` RPC and then
`markStoryAsViewed`; otherwise do nothing. -/
def handleStoryClick (story : Story) (currentUserId : Nat)
    (freshId freshId2 : Nat) (t : Int) (viewedStories : List Nat)
    (stories : List Story) (views : List StoryView) :
    List Nat × List Story × List StoryView :=
  if story.user_id ≠ currentUserId ∧ ¬ viewedStories.contains story.id then
    let r1 := incrementStoryViewsTracked story.id (some currentUserId)
      freshId t stories views
    let r2 := markStoryAsViewed freshId2 story.id currentUserId t
      viewedStories r1.2.2
    (r2.1, r1.2.1, r2.2)
  else (viewedStories, stories, views)

/-- The number of distinct viewers recorded for a story in `story_views`. -/
def distinctViewers (sid : Nat) (views : List StoryView) : Nat :=
  (((views.filter (fun r => r.story_id == sid)).map
    (fun r => r.viewer_id)).dedup).length

end Socialm.StoryViews

namespace Socialm.StoryViews

/-- C4, failing run: story 1 (owned by user 2) has `views_count = 1` and one
recorded viewer (user 3), a consistent state.  User 3 opens the story again
from another device, where the client-local viewed set is empty: the guard
in `handleStoryClick` passes, `increment_story_views` leaves `story_views`
alone (`ON CONFLICT DO NOTHING`) but still increments the counter, so
`views_count` becomes `2` while the story still has exactly `1` distinct
recorded viewer — the view is double-counted, contradicting the claim (and
the function's own comment "Only increment if viewer is provided and hasn't
viewed before"). -/
theorem handleStoryClick_double_counts :
    let story : Story := ⟨1, 2, "img", none, some 1, 0, 100⟩
    let views : List StoryView := [⟨0, 1, 3, 0⟩]
    let r := handleStoryClick story 3 7 8 5 [] [story] views
    distinctViewers 1 views = 1 ∧
      r.2.1.map Story.views_count = [some 2] ∧
      distinctViewers 1 r.2.2 = 1 := by
  decide

end Socialm.StoryViews

namespace Socialm

/-! ## Likes: the SQL function `toggle_post_like` -/

namespace Likes

/-- A row of the `likes` table: generated primary key plus the
`(post_id, user_id)` pair. -/
structure LikeRow where
  id : Nat
  post_id : Nat
  user_id : Nat
  deriving DecidableEq, Repr

/-- The `WHERE post_id = post_uuid AND user_id = user_uuid` match. -/
def likeMatches (post user : Nat) (r : LikeRow) : Bool :=
  r.post_id == post && r.user_id == user

/-- Models `SELECT COUNT(*) FROM likes WHERE post_id = post_uuid`. -/
def countLikes (post : Nat) (likes : List LikeRow) : Nat :=
  (likes.filter (fun r => r.post_id == post)).length

/-- Models `toggle_post_like` from migration `20250621123713_frosty_palace.sql`:
look up the existing like row for the pair; if present delete it by its id,
otherwise insert a new row (with a generated id), and in both cases return
the new `liked` flag and the post's like count. -/
def togglePostLike (freshId post user : Nat) (likes : List LikeRow) :
    (Bool × Nat) × List LikeRow :=
  match likes.find? (likeMatches post user) with
  | some existing =>
    let deleted := likes.filter (fun x => x.id != existing.id)
    ((false, countLikes post deleted), deleted)
  | none =>
    let inserted := likes ++ [⟨freshId, post, user⟩]
    ((true, countLikes post inserted), inserted)

/-- At most one like row per `(post_id, user_id)` pair. -/
def pairUniq (likes : List LikeRow) : Prop :=
  List.Pairwise
    (fun a b => ¬ (a.post_id = b.post_id ∧ a.user_id = b.user_id)) likes

instance (likes : List LikeRow) : Decidable (pairUniq likes) := by
  unfold pairUniq
  infer_instance

/-- Deleting by a primary key that is unique removes exactly the matching
row. -/
theorem filter_ne_id_eq_erase (likes : List LikeRow) (x : LikeRow)
    (hx : x ∈ likes) (hids : (likes.map LikeRow.id).Nodup) :
    likes.filter (fun y => y.id != x.id) = likes.erase x := by
  induction likes with
  | nil => cases hx
  | cons hd tl ih =>
    rw [List.map_cons] at hids
    by_cases hhd : hd = x
    · subst hhd
      rw [List.filter_cons, if_neg (by simp), List.erase_cons_head]
      rw [List.filter_eq_self]
      intro y hy
      have : y.id ∈ tl.map LikeRow.id := List.mem_map_of_mem _ hy
      have hne : hd.id ≠ y.id := fun hc =>
        (List.nodup_cons.mp hids).1 (hc ▸ this)
      simpa using fun hc => hne hc.symm
    · have hx' : x ∈ tl := by
        rcases List.mem_cons.mp hx with h | h
        · exact absurd h.symm hhd
        · exact h
      have hne : hd.id ≠ x.id := by
        intro hc
        have : x.id ∈ tl.map LikeRow.id := List.mem_map_of_mem _ hx'
        exact (List.nodup_cons.mp hids).1 (hc ▸ this)
      rw [List.filter_cons, if_pos (by simpa using hne),
        List.erase_cons_tail (by simpa using hhd)]
      rw [ih hx' (List.nodup_cons.mp hids).2]

/-- Under pair-uniqueness, two rows matching the same pair coincide. -/
theorem likeMatches_unique {post user : Nat} {likes : List LikeRow}
    (hpair : pairUniq likes) {x y : LikeRow} (hx : x ∈ likes)
    (hy : y ∈ likes) (hmx : likeMatches post user x = true)
    (hmy : likeMatches post user y = true) : x = y := by
  by_contra hne
  have hsymm : Symmetric (fun a b : LikeRow =>
      ¬ (a.post_id = b.post_id ∧ a.user_id = b.user_id)) := by
    intro a b hab hcon
    exact hab ⟨hcon.1.symm, hcon.2.symm⟩
  have hR := (List.Pairwise.forall hsymm hpair) hx hy hne
  have hmx' : x.post_id = post ∧ x.user_id = user := by
    simpa [likeMatches] using hmx
  have hmy' : y.post_id = post ∧ y.user_id = user := by
    simpa [likeMatches] using hmy
  exact hR ⟨by rw [hmx'.1, hmy'.1], by rw [hmx'.2, hmy'.2]⟩

end Likes

end Socialm

namespace Socialm.Likes

/-- C8, counterexample: `toggle_post_like` applied twice does not restore
the original set of `likes` rows — an unlike followed by a re-like inserts a
row with a fresh generated id.  Starting from the single row
`(id 5, post 1, user 2)`, two toggles (fresh ids 7 then 8) end with
`(id 8, post 1, user 2)`, a different row set. -/
theorem togglePostLike_not_row_involution :
    let likes : List LikeRow := [⟨5, 1, 2⟩]
    let r1 := togglePostLike 7 1 2 likes
    let r2 := togglePostLike 8 1 2 r1.2
    r1.2 = [] ∧ r2.2 = [⟨8, 1, 2⟩] ∧ r2.2 ≠ likes := by
  decide

/-- C8, amended: under the primary-key and pair-uniqueness invariants (and a
fresh generated id), `toggle_post_like` is an involution on the *like state*
with an accurate return value: with no row for the pair it inserts exactly
one such row and returns `liked = true`; with an existing row it deletes
exactly that row and returns `liked = false`; in both cases the returned
`likes_count` is the number of like rows for the post after the call; and
applying it twice restores the original multiset of `(post_id, user_id)`
pairs — though, as the counterexample shows, not necessarily the original
rows, since a re-inserted row carries a fresh id. -/
theorem togglePostLike_spec (freshId freshId2 post user : Nat)
    (likes : List LikeRow)
    (hids : (likes.map LikeRow.id).Nodup)
    (hpair : pairUniq likes)
    (hfresh : freshId ∉ likes.map LikeRow.id) :
    let r := togglePostLike freshId post user likes
    ((∀ x ∈ likes, likeMatches post user x = false) →
        r.1.1 = true ∧ r.2 = likes ++ [⟨freshId, post, user⟩]) ∧
      (∀ x ∈ likes, likeMatches post user x = true →
        r.1.1 = false ∧ r.2 = likes.erase x) ∧
      r.1.2 = countLikes post r.2 ∧
      ((togglePostLike freshId2 post user r.2).2.map
          (fun y => (y.post_id, y.user_id))).Perm
        (likes.map (fun y => (y.post_id, y.user_id))) := by
  intro r
  have hr : r = togglePostLike freshId post user likes := rfl
  clear_value r
  subst hr
  cases hfind : likes.find? (likeMatches post user) with
  | none =>
    have hnone : ∀ x ∈ likes, ¬ likeMatches post user x = true :=
      List.find?_eq_none.mp hfind
    have h2 : (togglePostLike freshId post user likes).2
        = likes ++ [(⟨freshId, post, user⟩ : LikeRow)] := by
      simp [togglePostLike, hfind]
    refine ⟨?_, ?_, ?_, ?_⟩
    · intro _
      constructor
      · simp [togglePostLike, hfind]
      · exact h2
    · intro x hx hmx
      exact absurd hmx (hnone x hx)
    · simp [togglePostLike, hfind]
    · rw [h2]
      have hm : likeMatches post user ⟨freshId, post, user⟩ = true := by
        simp [likeMatches]
      have hfind2 : (likes ++ [(⟨freshId, post, user⟩ : LikeRow)]).find?
          (likeMatches post user) = some ⟨freshId, post, user⟩ := by
        rw [List.find?_append, hfind]
        simp [hm]
      have h4 : (likes ++ [(⟨freshId, post, user⟩ : LikeRow)]).filter
          (fun x => x.id != freshId) = likes := by
        rw [List.filter_append]
        have h5 : likes.filter (fun x => x.id != freshId) = likes := by
          rw [List.filter_eq_self]
          intro y hy
          have hmem : y.id ∈ likes.map LikeRow.id := List.mem_map_of_mem _ hy
          have hne : y.id ≠ freshId := fun hc => hfresh (hc ▸ hmem)
          simpa using hne
        rw [h5]
        simp
      have h3 : (togglePostLike freshId2 post user
          (likes ++ [(⟨freshId, post, user⟩ : LikeRow)])).2 = likes := by
        simp only [togglePostLike, hfind2]
        exact h4
      rw [h3]
  | some ex =>
    have hmem : ex ∈ likes := List.mem_of_find?_eq_some hfind
    have hmx : likeMatches post user ex = true := List.find?_some hfind
    have herase : likes.filter (fun x => x.id != ex.id) = likes.erase ex :=
      filter_ne_id_eq_erase likes ex hmem hids
    have h2 : (togglePostLike freshId post user likes).2 = likes.erase ex := by
      simp only [togglePostLike, hfind]
      exact herase
    refine ⟨?_, ?_, ?_, ?_⟩
    · intro hall
      exact absurd hmx (by simp [hall ex hmem])
    · intro x hx hmx'
      have hxe : x = ex := likeMatches_unique hpair hx hmem hmx' hmx
      subst hxe
      exact ⟨by simp [togglePostLike, hfind], h2⟩
    · simp [togglePostLike, hfind]
    · rw [h2]
      have hfind2 : (likes.erase ex).find? (likeMatches post user) = none := by
        rw [List.find?_eq_none]
        intro y hy hmy
        have hyl : y ∈ likes := List.mem_of_mem_erase hy
        have hye : y = ex := likeMatches_unique hpair hyl hmem hmy hmx
        subst hye
        have hnd : likes.Nodup := List.Nodup.of_map LikeRow.id hids
        have hle := List.nodup_iff_count_le_one.mp hnd y
        have hcount := List.count_erase_self y likes
        have hpos := List.count_pos_iff.mpr hy
        omega
      have h3 : (togglePostLike freshId2 post user (likes.erase ex)).2
          = likes.erase ex ++ [(⟨freshId2, post, user⟩ : LikeRow)] := by
        simp [togglePostLike, hfind2]
      rw [h3]
      have hperm : likes.Perm (ex :: likes.erase ex) :=
        List.perm_cons_erase hmem
      have hproj : (ex.post_id, ex.user_id) = (post, user) := by
        have hmx' : ex.post_id = post ∧ ex.user_id = user := by
          simpa [likeMatches] using hmx
        rw [hmx'.1, hmx'.2]
      have hstep : ((likes.erase ex ++ [(⟨freshId2, post, user⟩ : LikeRow)]).map
          (fun y => (y.post_id, y.user_id)))
          = (likes.erase ex).map (fun y => (y.post_id, y.user_id))
            ++ [(post, user)] := by
        simp
      rw [hstep]
      refine (List.perm_append_singleton _ _).trans ?_
      have hcons : ((post, user) :: (likes.erase ex).map
          (fun y => (y.post_id, y.user_id)))
          = (ex :: likes.erase ex).map (fun y => (y.post_id, y.user_id)) := by
        rw [List.map_cons, hproj]
      rw [hcons]
      exact (hperm.map _).symm

/-- Closed witness for `togglePostLike_spec`: one existing like row for the
pair `(post 1, user 2)`, fresh ids 7 and 8. -/
theorem togglePostLike_spec_witness :
    (([⟨5, 1, 2⟩, ⟨6, 1, 3⟩] : List LikeRow).map LikeRow.id).Nodup ∧
      pairUniq [⟨5, 1, 2⟩, ⟨6, 1, 3⟩] ∧
      (7 : Nat) ∉ ([⟨5, 1, 2⟩, ⟨6, 1, 3⟩] : List LikeRow).map LikeRow.id ∧
      (let r := togglePostLike 7 1 2 [⟨5, 1, 2⟩, ⟨6, 1, 3⟩];
        ((∀ x ∈ ([⟨5, 1, 2⟩, ⟨6, 1, 3⟩] : List LikeRow),
            likeMatches 1 2 x = false) →
            r.1.1 = true ∧ r.2 = [⟨5, 1, 2⟩, ⟨6, 1, 3⟩] ++ [⟨7, 1, 2⟩]) ∧
          (∀ x ∈ ([⟨5, 1, 2⟩, ⟨6, 1, 3⟩] : List LikeRow),
            likeMatches 1 2 x = true →
            r.1.1 = false ∧ r.2 = ([⟨5, 1, 2⟩, ⟨6, 1, 3⟩] : List LikeRow).erase x) ∧
          r.1.2 = countLikes 1 r.2 ∧
          ((togglePostLike 8 1 2 r.2).2.map
              (fun y => (y.post_id, y.user_id))).Perm
            (([⟨5, 1, 2⟩, ⟨6, 1, 3⟩] : List LikeRow).map
              (fun y => (y.post_id, y.user_id)))) :=
  ⟨by decide, by decide, by decide,
    togglePostLike_spec 7 8 1 2 [⟨5, 1, 2⟩, ⟨6, 1, 3⟩]
      (by decide) (by decide) (by decide)⟩

end Socialm.Likes
